import Mathlib

/-!
Verification development for the `mathgame` repository.

The repository is a single-question-at-a-time math trivia game with two
delivery variants: `app.py` (a Flask web backend keyed by Telegram WebApp
identities) and `math1.py` (a Telegram bot).  This file gives a shallow
embedding of the round-lifecycle core of `app.py` (the `game_state` round
store, the `/api/question` and `/api/answer` routes, the score persistence
helpers) together with the distractor generators of both files and the
`validate_init_data` identity check, and proves the specified properties
about them.

Modelling conventions:
- SQLite's `students` table is a function `Int → Option StudentRow`.
- The in-memory `game_state` dict is a function `Int → Option Round`.
- `time.time()` values are modelled as integers (seconds); a route receives
  `now` as a parameter.  Every deadline comparison in the code is between
  `elapsed` and the integer `timer + 1`, so the branch structure of the
  model is exactly that of the code.
- Randomness is passed in explicitly: `random.randint(lo, hi)` consumes a
  raw natural number draw and maps it into `[lo, hi]`; `random.choice([-1,1])`
  consumes a `Bool`.  `random.shuffle` only permutes the result list and is
  dropped (all properties proved here are about contents and distinctness).
- The external crypto and JSON primitives used by `validate_init_data`
  (`hmac`/`hashlib` digests, `json.loads`) are parameters of the embedding.
-/

namespace MathGame

/-- Per-level configuration, from the `LEVELS` dict of `app.py`
(the `gen` question generator is an external random source, passed to the
route as an oracle, so it is not part of this structure). -/
structure LevelCfg where
  label : String
  timer : Nat
  points : Nat
deriving DecidableEq, Repr

/-- The `LEVELS` dict of `app.py` (labels, timers and point values). -/
def LEVELS : List (String × LevelCfg) :=
  [ ("school_easy",   ⟨"School – Easy",          15, 1⟩),
    ("school_medium", ⟨"School – Medium",        15, 2⟩),
    ("uni_calculus",  ⟨"University – Calculus",  20, 3⟩),
    ("uni_linalg",    ⟨"University – Linear Alg", 20, 3⟩),
    ("uni_discrete",  ⟨"University – Discrete",  20, 3⟩),
    ("mixed",         ⟨"Mixed – All Levels",     20, 2⟩) ]

/-- The `LEVEL_COLUMNS` dict of `app.py`: level key → DB column. -/
def LEVEL_COLUMNS : List (String × String) :=
  [ ("school_easy", "school_points"),
    ("school_medium", "school_points"),
    ("uni_calculus", "uni_points"),
    ("uni_linalg", "uni_points"),
    ("uni_discrete", "uni_points"),
    ("mixed", "school_points") ]

/-- `LEVEL_COLUMNS.get(level_key, "school_points")` as used by
`get_score` and `save_score`. -/
def levelColumn (level_key : String) : String :=
  (LEVEL_COLUMNS.lookup level_key).getD "school_points"

/-- One row of the SQLite `students` table. -/
structure StudentRow where
  username : String
  school_points : Int
  uni_points : Int
deriving DecidableEq, Repr

/-- The `students` table, keyed by `user_id`. -/
def DB : Type := Int → Option StudentRow

/-- `SELECT {column} FROM students`: read the named column of a row.
The column name is always one of the two point columns. -/
def rowGet (r : StudentRow) (column : String) : Int :=
  if column = "uni_points" then r.uni_points else r.school_points

/-- `UPDATE students SET {column} = v`: write the named column of a row. -/
def rowSet (r : StudentRow) (column : String) (v : Int) : StudentRow :=
  if column = "uni_points" then { r with uni_points := v }
  else { r with school_points := v }

/-- `INSERT INTO students (user_id, username, {column}) VALUES (?, ?, ?)`:
the fresh row produced by the insert branch of `save_score` (the other
point column takes its SQL default 0). -/
def insertRow (username : String) (column : String) (score : Int) : StudentRow :=
  if column = "uni_points" then ⟨username, 0, score⟩ else ⟨username, score, 0⟩

/-- `ensure_user` of `app.py`: register the user if absent, else refresh
the username. -/
def ensure_user (db : DB) (user_id : Int) (username : String) : DB :=
  fun uid =>
    if uid = user_id then
      match db user_id with
      | some r => some { r with username := username }
      | none => some ⟨username, 0, 0⟩
    else db uid

/-- `get_score` of `app.py`: the stored value of the level's column,
0 when the player has no row. -/
def get_score (db : DB) (user_id : Int) (level_key : String) : Int :=
  match db user_id with
  | some r => rowGet r (levelColumn level_key)
  | none => 0

/-- `save_score` of `app.py`: conditional upsert.  If the row exists, the
column becomes `score` only when `score` is strictly greater than the stored
value (`CASE WHEN ? > col THEN ? ELSE col END`); otherwise a fresh row is
inserted with `score` in the level's column. -/
def save_score (db : DB) (user_id : Int) (username : String) (score : Int)
    (level_key : String) : DB :=
  let column := levelColumn level_key
  match db user_id with
  | some r =>
      fun uid =>
        if uid = user_id then
          some (rowSet r column (if rowGet r column < score then score else rowGet r column))
        else db uid
  | none =>
      fun uid =>
        if uid = user_id then some (insertRow username column score) else db uid

/-- `update_high_score` of `math1.py`: read the current value (0 when the
row is absent) and `UPDATE` only when the new score is strictly greater.
Note the absent-row case issues an `UPDATE` that matches no row, so the
table is unchanged (callers register the row first). -/
def update_high_score (db : DB) (user_id : Int) (score : Int) (column : String) : DB :=
  let current_high := match db user_id with
    | some r => rowGet r column
    | none => 0
  if current_high < score then
    fun uid =>
      if uid = user_id then
        match db user_id with
        | some r => some (rowSet r column score)
        | none => none
      else db uid
  else db

/-- `random.randint(lo, hi)` modelled deterministically: a raw draw from the
random source is mapped into `[lo, hi]` (the modulus `hi - lo + 1` is
positive at every call site below). -/
def randint (lo hi : Int) (raw : Nat) : Int :=
  lo + (raw : Int) % (hi - lo + 1)

/-- `set.add`, keeping the Python set's contents as an insertion-ordered
duplicate-free list. -/
def addDistinct (acc : List Int) (v : Int) : List Int :=
  if v ∈ acc then acc else acc ++ [v]

/-- The `while len(choices) < count` loop of `_build_choices` in `app.py`,
consuming one `(offset draw, sign draw)` pair per iteration.  The Python
loop draws until the set is full; a run that exhausts the supplied draws
first is `none` (still running). -/
def buildChoicesGo (correct : Int) (count : Nat) :
    List (Nat × Bool) → List Int → Option (List Int)
  | [], choices => if count ≤ choices.length then some choices else none
  | (rawOff, sign) :: rest, choices =>
    if count ≤ choices.length then some choices
    else
      let offset := randint 1 (max 10 |correct|) rawOff
      buildChoicesGo correct count rest
        (addDistinct choices (correct + (if sign then 1 else -1) * offset))

/-- `_build_choices` of `app.py` with its default `count = 4`: seed the set
with the correct answer, then add `correct ± offset` for random offsets in
`[1, max(10, |correct|)]` until 4 distinct values exist.  The final
`random.shuffle` permutes the list and is dropped (contents-only model). -/
def build_choices (correct : Int) (draws : List (Nat × Bool)) : Option (List Int) :=
  buildChoicesGo correct 4 draws [correct]

/-- The bounded `while len(options) < 4 and attempts < 100` loop of
`generate_options` in `math1.py`: each attempt draws an offset in
`[-spread, spread]` and adds `answer + offset` when the offset is nonzero. -/
def genOptLoop (answer spread : Int) (stream : Nat → Nat) :
    Nat → List Int → List Int
  | 0, options => options
  | fuel + 1, options =>
    if 4 ≤ options.length then options
    else
      let offset := randint (-spread) spread (stream fuel)
      genOptLoop answer spread stream fuel
        (if offset = 0 then options else addDistinct options (answer + offset))

/-- The deterministic fallback `while len(options) < 4` loop of
`generate_options` in `math1.py`, adding `answer + spread + fallback` for
`fallback = 1, 2, ...`.  The Python loop is unbounded; the fuel `8` used
below is proved sufficient (`genOptFallback_length`), so the bounded model
computes the same result as the unbounded loop. -/
def genOptFallback (answer spread : Int) : Nat → Int → List Int → List Int
  | 0, _, options => options
  | fuel + 1, fallback, options =>
    if 4 ≤ options.length then options
    else
      genOptFallback answer spread fuel (fallback + 1)
        (addDistinct options (answer + spread + fallback))

/-- `generate_options` of `math1.py`: spread is `max(20, |answer| // 2)` for
the university level and 10 otherwise; up to 100 random attempts, then the
deterministic fallback fills the set to 4. -/
def generate_options (answer : Int) (level : String) (stream : Nat → Nat) : List Int :=
  let spread : Int := if level = "uni" then max 20 (|answer| / 2) else 10
  genOptFallback answer spread 8 1 (genOptLoop answer spread stream 100 [answer])

/-- The parsed Telegram user object (`json.loads` of the `user` field);
only the fields the routes read are modelled. -/
structure TgUser where
  id : Int
  first_name : Option String
  username : Option String
deriving DecidableEq, Repr

/-- The canonical data-check-string of `validate_init_data`: every parsed
field except `hash`, rendered `key=value`, sorted lexicographically, joined
with newline. -/
def checkString (fields : List (String × String)) : String :=
  String.intercalate "\n"
    (List.insertionSort (fun a b : String => a ≤ b)
      ((fields.filter (fun kv => kv.1 ≠ "hash")).map (fun kv => kv.1 ++ "=" ++ kv.2)))

/-- `validate_init_data` of `app.py`.  `fields` is the `parse_qs` result
(first value per key).  The external primitives are parameters:
`hmacDigest k m` is `hmac.new(k, m, sha256).digest()`, `hmacHexdigest k m`
is `hmac.new(k, m, sha256).hexdigest()` (`hmac.compare_digest` is
constant-time string equality), and `parseUserJson` is `json.loads` of the
`user` field (`none` when parsing raises). -/
def validate_init_data
    (hmacDigest : String → String → String)
    (hmacHexdigest : String → String → String)
    (parseUserJson : String → Option TgUser)
    (botToken : String)
    (fields : List (String × String)) : Option TgUser :=
  match fields.lookup "hash" with
  | none => none
  | some received =>
    if received = "" then none
    else
      let secret_key := hmacDigest "WebAppData" botToken
      let computed_hash := hmacHexdigest secret_key (checkString fields)
      if computed_hash = received then
        match fields.lookup "user" with
        | none => none
        | some user_json =>
          if user_json = "" then none else parseUserJson user_json
      else none

/-- `user.get("first_name", user.get("username", "Player"))` as computed by
both routes. -/
def displayName (u : TgUser) : String :=
  u.first_name.getD (u.username.getD "Player")

/-- One entry of the in-memory `game_state` dict: the pending round of a
player (`answer`, `level`, `time_start`). -/
structure Round where
  answer : Int
  level : String
  time_start : Int
deriving DecidableEq, Repr

/-- The `game_state` dict of `app.py`, keyed by `user_id`. -/
def GameState : Type := Int → Option Round

/-- The mutable server state touched by the two API routes: the SQLite
`students` table and the in-memory `game_state` dict. -/
structure ServerState where
  db : DB
  game_state : GameState

/-- Responses of `POST /api/question` (`get_question`). -/
inductive QuestionResp where
  | unauthorized
  | invalidLevel
  | ok (question : String) (choices : List Int) (timer : Nat) (label : String)
      (points : Nat)
deriving DecidableEq, Repr

/-- Responses of `POST /api/answer` (`check_answer`).  `levelKeyError`
models the unhandled `KeyError` a stored round with a level key outside
`LEVELS` would raise (unreachable from rounds written by `get_question`). -/
inductive AnswerResp where
  | unauthorized
  | noActiveQuestion
  | levelKeyError
  | timeoutR (answer : Int) (score : Int)
  | correctR (points : Nat) (score : Int)
  | incorrectR (answer : Int) (score : Int)
deriving DecidableEq, Repr

/-- The `get_question` route of `app.py` (`POST /api/question`).

Inputs: `user` is `get_telegram_user()`'s result (`none` = rejected),
`level_field` is the request body's `level` field (`none` = absent, so
`data.get("level", "school_easy")` defaults), `gen` is the value of the
random question generator `level["gen"]()`, `draws` feeds
`_build_choices`, and `now` is `time.time()`.

Returns `none` only when `_build_choices` is still looping on the supplied
draws (the Python call has not returned). -/
def get_question (user : Option TgUser) (level_field : Option String)
    (gen : String × Int) (draws : List (Nat × Bool)) (now : Int)
    (st : ServerState) : Option (QuestionResp × ServerState) :=
  match user with
  | none => some (.unauthorized, st)
  | some u =>
    let user_id := u.id
    let username := displayName u
    let db1 := ensure_user st.db user_id username
    let level_key := level_field.getD "school_easy"
    match LEVELS.lookup level_key with
    | none => some (.invalidLevel, { st with db := db1 })
    | some level =>
      match build_choices gen.2 draws with
      | none => none
      | some choices =>
        some (.ok gen.1 choices level.timer level.label level.points,
          { db := db1,
            game_state := fun uid =>
              if uid = user_id then some ⟨gen.2, level_key, now⟩
              else st.game_state uid })

/-- The `check_answer` route of `app.py` (`POST /api/answer`).

Inputs: `user` is `get_telegram_user()`'s result, `chosen` is the body's
`answer` field (`none` = absent or not an integer), `now` is `time.time()`.
The route pops the player's round first (`game_state.pop(user_id, None)`),
then checks the deadline, then compares the answer. -/
def check_answer (user : Option TgUser) (chosen : Option Int) (now : Int)
    (st : ServerState) : AnswerResp × ServerState :=
  match user with
  | none => (.unauthorized, st)
  | some u =>
    let user_id := u.id
    let username := displayName u
    match st.game_state user_id with
    | none => (.noActiveQuestion, st)
    | some state =>
      let st1 : ServerState :=
        { st with game_state := fun uid =>
            if uid = user_id then none else st.game_state uid }
      match LEVELS.lookup state.level with
      | none => (.levelKeyError, st1)
      | some level =>
        let elapsed := now - state.time_start
        if (level.timer : Int) + 1 < elapsed then
          (.timeoutR state.answer (get_score st1.db user_id state.level), st1)
        else if chosen = some state.answer then
          let pts := level.points
          let new_score := get_score st1.db user_id state.level + pts
          (.correctR pts new_score,
            { st1 with db := save_score st1.db user_id username new_score state.level })
        else
          (.incorrectR state.answer (get_score st1.db user_id state.level), st1)

/-! ### Basic lemmas about the embedded operations -/

lemma rowGet_rowSet (r : StudentRow) (col : String) (v : Int) :
    rowGet (rowSet r col v) col = v := by
  simp only [rowGet, rowSet]
  split_ifs with h <;> rfl

lemma rowGet_insertRow (name col : String) (s : Int) :
    rowGet (insertRow name col s) col = s := by
  simp only [rowGet, insertRow]
  split_ifs with h <;> rfl

lemma rowSet_self (r : StudentRow) (col : String) :
    rowSet r col (rowGet r col) = r := by
  simp only [rowGet, rowSet]
  split_ifs with h <;> rfl

/-- Every level in `LEVELS` awards at least one point. -/
lemma LEVELS_points_pos {k : String} {cfg : LevelCfg}
    (h : LEVELS.lookup k = some cfg) : 1 ≤ cfg.points := by
  simp only [LEVELS, List.lookup] at h
  repeat' split at h
  all_goals first
  | exact Option.noConfusion h
  | (cases h; decide)

/-- Saving `current + pts` (with `0 ≤ pts`) commits exactly `current + pts`,
whether or not the player already has a row. -/
lemma get_score_save_add (db : DB) (uid : Int) (name : String) (key : String)
    (pts : Int) (hp : 0 ≤ pts) :
    get_score (save_score db uid name (get_score db uid key + pts) key) uid key
      = get_score db uid key + pts := by
  unfold get_score save_score
  cases hdb : db uid with
  | none =>
    simp [hdb, rowGet_insertRow]
  | some r =>
    simp [hdb, rowGet_rowSet]
    omega

/-- The state left behind by `game_state.pop(user_id, None)`. -/
def postPop (st : ServerState) (user_id : Int) : ServerState :=
  { st with game_state := fun uid =>
      if uid = user_id then none else st.game_state uid }

/-- Unfolding `check_answer` when the player has a pending round. -/
lemma check_answer_eq (u : TgUser) (c : Option Int) (t : Int) (st : ServerState)
    (round : Round) (h : st.game_state u.id = some round) :
    check_answer (some u) c t st =
      match LEVELS.lookup round.level with
      | none => (.levelKeyError, postPop st u.id)
      | some level =>
        if (level.timer : Int) + 1 < t - round.time_start then
          (.timeoutR round.answer (get_score st.db u.id round.level), postPop st u.id)
        else if c = some round.answer then
          (.correctR level.points (get_score st.db u.id round.level + level.points),
            { postPop st u.id with
                db := save_score st.db u.id (displayName u)
                        (get_score st.db u.id round.level + level.points)
                        round.level })
        else
          (.incorrectR round.answer (get_score st.db u.id round.level), postPop st u.id) := by
  unfold check_answer postPop
  simp only [h]

/-- `check_answer` with no pending round fails and leaves the state alone. -/
lemma check_answer_no_round (u : TgUser) (c : Option Int) (t : Int)
    (st : ServerState) (h : st.game_state u.id = none) :
    check_answer (some u) c t st = (.noActiveQuestion, st) := by
  unfold check_answer
  simp only [h]

/-- `check_answer` always removes the round it found (fetch-and-remove),
whatever verdict it then produces. -/
lemma check_answer_consumes (u : TgUser) (c : Option Int) (t : Int)
    (st : ServerState) (round : Round) (h : st.game_state u.id = some round) :
    ((check_answer (some u) c t st).2).game_state u.id = none := by
  rw [check_answer_eq u c t st round h]
  cases LEVELS.lookup round.level with
  | none => simp [postPop]
  | some level =>
    by_cases h1 : (level.timer : Int) + 1 < t - round.time_start <;>
      by_cases h2 : c = some round.answer <;>
      simp [h1, h2, postPop]

/-! ### Concrete fixtures used by the evaluation witnesses -/

def db0 : DB := fun _ => none

def dbA : DB := fun uid => if uid = 1 then some ⟨"Ann", 5, 0⟩ else none

def st0 : ServerState := ⟨db0, fun _ => none⟩

def u1 : TgUser := ⟨1, some "Ann", none⟩

def r5 : Round := ⟨5, "school_easy", 0⟩

def stR : ServerState := ⟨db0, fun uid => if uid = 1 then some r5 else none⟩

def stRA : ServerState := ⟨dbA, fun uid => if uid = 1 then some r5 else none⟩

def dr3 : List (Nat × Bool) := [(0, true), (1, true), (2, true)]

/-! ### Claim theorems -/

/-- C1: with one round issued for a player, the first `ResolveRound`
(`POST /api/answer`) consumes the round — the store entry becomes `none` —
and a second call, with any submitted answer at any time, fails with
`NoActiveRound` ("No active question") and changes nothing, whatever the
first call's verdict (Correct, Incorrect or Timeout) was. -/
theorem resolve_round_twice_second_noActiveRound
    (u : TgUser) (st : ServerState) (round : Round)
    (h : st.game_state u.id = some round)
    (c₁ c₂ : Option Int) (t₁ t₂ : Int) :
    ((check_answer (some u) c₁ t₁ st).2).game_state u.id = none ∧
    check_answer (some u) c₂ t₂ (check_answer (some u) c₁ t₁ st).2
      = (.noActiveQuestion, (check_answer (some u) c₁ t₁ st).2) := by
  have hpop := check_answer_consumes u c₁ t₁ st round h
  exact ⟨hpop, check_answer_no_round u c₂ t₂ _ hpop⟩

/-- C1 witness: a concrete round for player 1; resolve twice. -/
theorem resolve_round_twice_second_noActiveRound_witness :
    stR.game_state u1.id = some r5 ∧
    (((check_answer (some u1) (some 5) 3 stR).2).game_state u1.id = none ∧
     check_answer (some u1) (some 9) 4 (check_answer (some u1) (some 5) 3 stR).2
       = (.noActiveQuestion, (check_answer (some u1) (some 5) 3 stR).2)) :=
  ⟨rfl, resolve_round_twice_second_noActiveRound u1 stR r5 rfl (some 5) (some 9) 3 4⟩

/-- C3: resolving a pending round strictly after `timer + 1` seconds have
elapsed yields the Timeout verdict for every submitted answer — including
the correct one — disclosing the correct answer and reporting the stored
score; the database is unchanged and the round is consumed. -/
theorem resolve_after_deadline_timeout
    (u : TgUser) (st : ServerState) (round : Round) (level : LevelCfg)
    (h : st.game_state u.id = some round)
    (hl : LEVELS.lookup round.level = some level)
    (c : Option Int) (now : Int)
    (hlate : (level.timer : Int) + 1 < now - round.time_start) :
    check_answer (some u) c now st
      = (.timeoutR round.answer (get_score st.db u.id round.level), postPop st u.id) ∧
    (postPop st u.id).db = st.db ∧
    (postPop st u.id).game_state u.id = none := by
  rw [check_answer_eq u c now st round h]
  simp only [hl, if_pos hlate]
  exact ⟨trivial, rfl, by simp [postPop]⟩

/-- C3 witness: the submitted answer equals the correct answer 5, but 17
seconds have elapsed against a 15-second timer. -/
theorem resolve_after_deadline_timeout_witness :
    some (5 : Int) = some r5.answer ∧
    (check_answer (some u1) (some 5) 17 stR
      = (.timeoutR r5.answer (get_score stR.db u1.id r5.level), postPop stR u1.id) ∧
     (postPop stR u1.id).db = stR.db ∧
     (postPop stR u1.id).game_state u1.id = none) :=
  ⟨rfl, resolve_after_deadline_timeout u1 stR r5 ⟨"School – Easy", 15, 1⟩ rfl rfl
    (some 5) 17 (by decide)⟩

/-- C4: resolving in time with the correct answer reports the track's
point value and the new score `current + points`, and commits exactly
`current + points` — which equals `max(current, current + points)` — to
the score store. -/
theorem resolve_correct_commits_score
    (u : TgUser) (st : ServerState) (round : Round) (level : LevelCfg)
    (h : st.game_state u.id = some round)
    (hl : LEVELS.lookup round.level = some level)
    (now : Int)
    (hin : ¬ ((level.timer : Int) + 1 < now - round.time_start)) :
    (check_answer (some u) (some round.answer) now st).1
      = .correctR level.points (get_score st.db u.id round.level + level.points) ∧
    get_score ((check_answer (some u) (some round.answer) now st).2).db u.id round.level
      = get_score st.db u.id round.level + level.points ∧
    get_score st.db u.id round.level + (level.points : Int)
      = max (get_score st.db u.id round.level)
          (get_score st.db u.id round.level + (level.points : Int)) := by
  rw [check_answer_eq u (some round.answer) now st round h]
  simp only [hl, if_neg hin, if_pos rfl]
  refine ⟨rfl, ?_, ?_⟩
  · exact get_score_save_add st.db u.id (displayName u) round.level
      (level.points : Int) (Int.natCast_nonneg _)
  · exact (max_eq_right (le_add_of_nonneg_right (Int.natCast_nonneg _))).symm

/-- C4 witness: player 1 has stored score 5 on the school column, answers
the pending round (correct answer 5) correctly after 3 seconds, and the
stored score becomes 6 = 5 + 1. -/
theorem resolve_correct_commits_score_witness :
    (check_answer (some u1) (some r5.answer) 3 stRA).1
      = .correctR 1 (get_score stRA.db u1.id r5.level + 1) ∧
    get_score ((check_answer (some u1) (some r5.answer) 3 stRA).2).db u1.id r5.level
      = get_score stRA.db u1.id r5.level + 1 ∧
    get_score stRA.db u1.id r5.level + ((1 : Nat) : Int)
      = max (get_score stRA.db u1.id r5.level)
          (get_score stRA.db u1.id r5.level + ((1 : Nat) : Int)) :=
  resolve_correct_commits_score u1 stRA r5 ⟨"School – Easy", 15, 1⟩ rfl rfl 3
    (by decide)

/-- C10: resolving in time with a submitted answer that is missing or not
equal to the correct answer never errors: it yields the Incorrect verdict,
disclosing the correct answer and the unchanged stored score, leaves the
database alone, and still consumes the round. -/
theorem resolve_wrong_or_missing_incorrect
    (u : TgUser) (st : ServerState) (round : Round) (level : LevelCfg)
    (h : st.game_state u.id = some round)
    (hl : LEVELS.lookup round.level = some level)
    (c : Option Int) (now : Int)
    (hin : ¬ ((level.timer : Int) + 1 < now - round.time_start))
    (hne : c ≠ some round.answer) :
    check_answer (some u) c now st
      = (.incorrectR round.answer (get_score st.db u.id round.level), postPop st u.id) ∧
    (postPop st u.id).db = st.db ∧
    (postPop st u.id).game_state u.id = none := by
  rw [check_answer_eq u c now st round h]
  simp only [hl, if_neg hin, if_neg hne]
  exact ⟨trivial, rfl, by simp [postPop]⟩

/-- C10 witness: the `answer` body field is absent (`none`) with a pending
in-deadline round; the verdict is Incorrect and the round is consumed. -/
theorem resolve_wrong_or_missing_incorrect_witness :
    check_answer (some u1) none 3 stRA
      = (.incorrectR r5.answer (get_score stRA.db u1.id r5.level), postPop stRA u1.id) ∧
    (postPop stRA u1.id).db = stRA.db ∧
    (postPop stRA u1.id).game_state u1.id = none :=
  resolve_wrong_or_missing_incorrect u1 stRA r5 ⟨"School – Easy", 15, 1⟩ rfl rfl
    none 3 (by decide) (by decide)

/-- C5: `save_score` is a monotonic upsert.  With a candidate at most the
stored value the row is unchanged; with a strictly greater candidate the
stored value becomes exactly the candidate; with no row present a row is
inserted carrying the candidate; and whenever a row existed before, its
stored value never decreases. -/
theorem save_score_monotonic_upsert (db : DB) (uid : Int) (name : String)
    (cand : Int) (key : String) :
    (∀ r, db uid = some r → cand ≤ rowGet r (levelColumn key) →
      save_score db uid name cand key uid = db uid) ∧
    (∀ r, db uid = some r → rowGet r (levelColumn key) < cand →
      save_score db uid name cand key uid
        = some (rowSet r (levelColumn key) cand)) ∧
    (db uid = none →
      save_score db uid name cand key uid
        = some (insertRow name (levelColumn key) cand)) ∧
    (∀ r r', db uid = some r → save_score db uid name cand key uid = some r' →
      rowGet r (levelColumn key) ≤ rowGet r' (levelColumn key)) := by
  refine ⟨?_, ?_, ?_, ?_⟩
  · intro r hr hle
    have hcond : ¬ (rowGet r (levelColumn key) < cand) := by omega
    unfold save_score
    simp [hr, hcond, rowSet_self]
  · intro r hr hlt
    unfold save_score
    simp [hr, hlt]
  · intro hr
    unfold save_score
    simp [hr]
  · intro r r' hr hr'
    unfold save_score at hr'
    simp [hr] at hr'
    subst hr'
    rw [rowGet_rowSet]
    split_ifs with h <;> omega

/-- C5 witness: player 1 stores 5 school points.  Candidate 3 is a no-op,
candidate 9 overwrites to exactly 9, and for absent player 2 a row is
inserted; the stored value never decreased. -/
theorem save_score_monotonic_upsert_witness :
    (∀ r, dbA 1 = some r → (3 : Int) ≤ rowGet r (levelColumn "school_easy") →
      save_score dbA 1 "Ann" 3 "school_easy" 1 = dbA 1) ∧
    (∀ r, dbA 1 = some r → rowGet r (levelColumn "school_easy") < 9 →
      save_score dbA 1 "Ann" 9 "school_easy" 1
        = some (rowSet r (levelColumn "school_easy") 9)) ∧
    (dbA 1 = none →
      save_score dbA 1 "Ann" 9 "school_easy" 1
        = some (insertRow "Ann" (levelColumn "school_easy") 9)) ∧
    (∀ r r', dbA 1 = some r → save_score dbA 1 "Ann" 9 "school_easy" 1 = some r' →
      rowGet r (levelColumn "school_easy") ≤ rowGet r' (levelColumn "school_easy")) :=
  ⟨(save_score_monotonic_upsert dbA 1 "Ann" 3 "school_easy").1,
   (save_score_monotonic_upsert dbA 1 "Ann" 9 "school_easy").2.1,
   (save_score_monotonic_upsert dbA 1 "Ann" 9 "school_easy").2.2.1,
   (save_score_monotonic_upsert dbA 1 "Ann" 9 "school_easy").2.2.2⟩

/-- C7: signing round-trip of `validate_init_data`.  For every parsed
payload whose declared `hash` field equals the hex HMAC-SHA256 of the
canonical check-string under the secret derived from the bot token, and
whose `user` field is present, non-empty and parseable, validation
succeeds and returns exactly the parsed identity.  The external
HMAC-SHA256 primitives and the JSON parser are universally quantified
(`hdig` never returning the empty string reflects that a SHA-256 hex
digest always has 64 characters). -/
theorem validate_init_data_roundtrip
    (dig hdig : String → String → String)
    (parseUserJson : String → Option TgUser)
    (botToken : String) (fields : List (String × String))
    (user_json : String) (u : TgUser)
    (hhash : fields.lookup "hash"
      = some (hdig (dig "WebAppData" botToken) (checkString fields)))
    (hne : hdig (dig "WebAppData" botToken) (checkString fields) ≠ "")
    (huser : fields.lookup "user" = some user_json)
    (hjne : user_json ≠ "")
    (hparse : parseUserJson user_json = some u) :
    validate_init_data dig hdig parseUserJson botToken fields = some u := by
  unfold validate_init_data
  simp [hhash, huser, hne, hjne, hparse]

/-- C7 witness: a two-field payload signed with a concrete stand-in digest
function round-trips to the parsed user. -/
theorem validate_init_data_roundtrip_witness :
    ([("user", "u1"), ("hash", "k:WebAppData.BOT" ++ ":" ++ "user=u1")].lookup "hash"
      = some ((fun k m => k ++ ":" ++ m) ((fun k m => "k:" ++ k ++ "." ++ m) "WebAppData" "BOT")
          (checkString [("user", "u1"), ("hash", "k:WebAppData.BOT" ++ ":" ++ "user=u1")]))) ∧
    validate_init_data (fun k m => "k:" ++ k ++ "." ++ m) (fun k m => k ++ ":" ++ m)
        (fun s => if s = "u1" then some u1 else none) "BOT"
        [("user", "u1"), ("hash", "k:WebAppData.BOT" ++ ":" ++ "user=u1")]
      = some u1 :=
  ⟨by decide,
   validate_init_data_roundtrip (fun k m => "k:" ++ k ++ "." ++ m) (fun k m => k ++ ":" ++ m)
     (fun s => if s = "u1" then some u1 else none) "BOT"
     [("user", "u1"), ("hash", "k:WebAppData.BOT" ++ ":" ++ "user=u1")] "u1" u1
     (by decide) (by decide) (by decide) (by decide) (by simp)⟩

/-! ### Lemmas about `get_question` -/

/-- Unfolding `get_question` when the level key resolves and the choice
loop finishes. -/
lemma get_question_eq_ok (u : TgUser) (lf : Option String) (gen : String × Int)
    (draws : List (Nat × Bool)) (now : Int) (st : ServerState)
    (level : LevelCfg) (choices : List Int)
    (hl : LEVELS.lookup (lf.getD "school_easy") = some level)
    (hc : build_choices gen.2 draws = some choices) :
    get_question (some u) lf gen draws now st =
      some (.ok gen.1 choices level.timer level.label level.points,
        { db := ensure_user st.db u.id (displayName u),
          game_state := fun uid =>
            if uid = u.id then some ⟨gen.2, lf.getD "school_easy", now⟩
            else st.game_state uid }) := by
  unfold get_question
  simp only [hl, hc]

/-- Unfolding `get_question` when the level key is unrecognized: the
request is rejected with the invalid-level client error and no round is
written (only `ensure_user` has run). -/
lemma get_question_eq_invalid (u : TgUser) (lf : Option String)
    (gen : String × Int) (draws : List (Nat × Bool)) (now : Int)
    (st : ServerState)
    (hl : LEVELS.lookup (lf.getD "school_easy") = none) :
    get_question (some u) lf gen draws now st =
      some (.invalidLevel, { st with db := ensure_user st.db u.id (displayName u) }) := by
  unfold get_question
  simp only [hl]

/-- C8: frame property.  Whatever request is processed — `IssueRound` with
any level field (valid or not) and any authentication outcome, or
`ResolveRound` with any submitted answer (including ones failing with
`NoActiveRound`) — the round-store entry of every player other than the
authenticated one is unchanged. -/
theorem requests_preserve_other_players
    : (∀ (user : Option TgUser) (lf : Option String) (gen : String × Int)
         (draws : List (Nat × Bool)) (now : Int) (st : ServerState)
         (resp : QuestionResp) (st' : ServerState),
         get_question user lf gen draws now st = some (resp, st') →
         ∀ j : Int, (∀ v, user = some v → j ≠ v.id) →
           st'.game_state j = st.game_state j)
    ∧ (∀ (user : Option TgUser) (chosen : Option Int) (now : Int)
         (st : ServerState) (j : Int), (∀ v, user = some v → j ≠ v.id) →
         ((check_answer user chosen now st).2).game_state j = st.game_state j) := by
  constructor
  · intro user lf gen draws now st resp st' h j hj
    cases user with
    | none =>
      unfold get_question at h
      simp only [Option.some.injEq, Prod.mk.injEq] at h
      rw [← h.2]
    | some v =>
      unfold get_question at h
      cases hl : LEVELS.lookup (lf.getD "school_easy") with
      | none =>
        simp only [hl, Option.some.injEq, Prod.mk.injEq] at h
        rw [← h.2]
      | some level =>
        simp only [hl] at h
        cases hc : build_choices gen.2 draws with
        | none =>
          simp only [hc] at h
          exact Option.noConfusion h
        | some choices =>
          simp only [hc, Option.some.injEq, Prod.mk.injEq] at h
          rw [← h.2]
          simp only [if_neg (hj v rfl)]
  · intro user chosen now st j hj
    cases user with
    | none => rfl
    | some v =>
      cases hr : st.game_state v.id with
      | none => rw [check_answer_no_round v chosen now st hr]
      | some round =>
        rw [check_answer_eq v chosen now st round hr]
        cases LEVELS.lookup round.level with
        | none => simp [postPop, if_neg (hj v rfl)]
        | some level =>
          by_cases h1 : (level.timer : Int) + 1 < now - round.time_start <;>
            by_cases h2 : chosen = some round.answer <;>
            simp [h1, h2, postPop, if_neg (hj v rfl)]

/-- C8 witness: a question issued to player 1 and an answer resolved for
player 1 both leave player 2's round-store entry untouched. -/
theorem requests_preserve_other_players_witness :
    (({ db := ensure_user st0.db u1.id (displayName u1),
        game_state := fun uid =>
          if uid = u1.id then some ⟨(5 : Int), "school_easy", (0 : Int)⟩
          else st0.game_state uid } : ServerState).game_state 2
      = st0.game_state 2) ∧
    ((check_answer (some u1) (some 5) 3 stRA).2).game_state 2 = stRA.game_state 2 :=
  ⟨requests_preserve_other_players.1 (some u1) (some "school_easy") ("q", 5) dr3 0 st0
      (.ok "q" [5, 6, 7, 8] 15 "School – Easy" 1) _ rfl 2
      (fun v hv => (Option.some.inj hv) ▸ (by decide : (2 : Int) ≠ u1.id)),
   requests_preserve_other_players.2 (some u1) (some 5) 3 stRA 2
      (fun v hv => (Option.some.inj hv) ▸ (by decide : (2 : Int) ≠ u1.id))⟩

/-- C9: an authenticated `IssueRound` whose body has no `level` field is
not rejected: it defaults to the `school_easy` track — the response is the
ok-response for that track and a `school_easy` round is stored — and only
a present but unrecognized level key is rejected with the invalid-level
error (with no round written). -/
theorem missing_level_defaults_school_easy
    : (∀ (u : TgUser) (gen : String × Int) (draws : List (Nat × Bool))
         (now : Int) (st : ServerState) (resp : QuestionResp) (st' : ServerState),
         get_question (some u) none gen draws now st = some (resp, st') →
         resp ≠ .invalidLevel ∧
         (∀ choices, build_choices gen.2 draws = some choices →
            resp = .ok gen.1 choices 15 "School – Easy" 1) ∧
         st'.game_state u.id = some ⟨gen.2, "school_easy", now⟩)
    ∧ (∀ (u : TgUser) (lk : String) (gen : String × Int)
         (draws : List (Nat × Bool)) (now : Int) (st : ServerState),
         LEVELS.lookup lk = none →
         get_question (some u) (some lk) gen draws now st =
           some (.invalidLevel,
             { st with db := ensure_user st.db u.id (displayName u) })) := by
  constructor
  · intro u gen draws now st resp st' h
    cases hc : build_choices gen.2 draws with
    | none =>
      have hl : LEVELS.lookup ((none : Option String).getD "school_easy")
          = some (⟨"School – Easy", 15, 1⟩ : LevelCfg) := rfl
      unfold get_question at h
      simp only [hl, hc] at h
      exact Option.noConfusion h
    | some choices =>
      rw [get_question_eq_ok u none gen draws now st ⟨"School – Easy", 15, 1⟩
        choices rfl hc] at h
      simp only [Option.some.injEq, Prod.mk.injEq] at h
      obtain ⟨hr, hs⟩ := h
      refine ⟨?_, ?_, ?_⟩
      · rw [← hr]; intro hcontra; exact QuestionResp.noConfusion hcontra
      · intro ch hch
        have hcc : choices = ch := Option.some.inj hch
        rw [← hcc]
        exact hr.symm
      · rw [← hs]
        simp
  · intro u lk gen draws now st hl
    exact get_question_eq_invalid u (some lk) gen draws now st hl

/-- C9 witness: issuing with no level field stores a `school_easy` round;
issuing with the unknown key "bogus" is rejected with the invalid-level
error. -/
theorem missing_level_defaults_school_easy_witness :
    ((.ok "q" [5, 6, 7, 8] 15 "School – Easy" 1 : QuestionResp) ≠ .invalidLevel ∧
     (∀ choices, build_choices 5 dr3 = some choices →
        (.ok "q" [5, 6, 7, 8] 15 "School – Easy" 1 : QuestionResp)
          = .ok "q" choices 15 "School – Easy" 1) ∧
     ({ db := ensure_user st0.db u1.id (displayName u1),
        game_state := fun uid =>
          if uid = u1.id then some ⟨(5 : Int), "school_easy", (0 : Int)⟩
          else st0.game_state uid } : ServerState).game_state u1.id
       = some ⟨(5 : Int), "school_easy", (0 : Int)⟩) ∧
    get_question (some u1) (some "bogus") ("q", 5) dr3 0 st0 =
      some (.invalidLevel,
        { st0 with db := ensure_user st0.db u1.id (displayName u1) }) :=
  ⟨missing_level_defaults_school_easy.1 u1 ("q", 5) dr3 0 st0
      (.ok "q" [5, 6, 7, 8] 15 "School – Easy" 1) _ rfl,
   missing_level_defaults_school_easy.2 u1 "bogus" ("q", 5) dr3 0 st0 rfl⟩

/-- C2 counterexample: player 1 is issued a round with correct answer 5,
then (without resolving) a second round with correct answer 7.  Resolving
with the first round's answer 5 does NOT fail with `NoActiveRound`: the
second round is found and judged, producing the Incorrect verdict.  The
trace is the literal composition of the two issue calls and the resolve
call. -/
theorem issue_twice_resolve_first_answer_not_noActiveRound :
    ((get_question (some u1) (some "school_easy") ("q1", 5) dr3 0 st0).bind fun p =>
      (get_question (some u1) (some "school_easy") ("q2", 7) dr3 1 p.2).map fun q =>
        (check_answer (some u1) (some 5) 3 q.2).1)
      = some (.incorrectR 7 0) ∧
    (AnswerResp.incorrectR 7 0) ≠ .noActiveQuestion := by
  constructor
  · rfl
  · intro h
    exact AnswerResp.noConfusion h

/-- C2 (amended): for every player at most one round is live at any
instant (the store holds at most one round per player by construction);
issuing twice in succession leaves exactly the second round live — the
first is silently discarded, the second issue succeeding with an
ok-response, not an error — and a subsequent `ResolveRound` submitting the
first round's answer is judged against the second round: when the two
answers differ (and the deadline has not passed) it yields the Incorrect
verdict, not `NoActiveRound`. -/
theorem issue_twice_supersedes
    (u : TgUser) (lf₁ lf₂ : Option String) (gen₁ gen₂ : String × Int)
    (draws₁ draws₂ : List (Nat × Bool)) (t₁ t₂ now : Int)
    (st st₁ st₂ : ServerState) (r₁ r₂ : QuestionResp) (level₂ : LevelCfg)
    (_h₁ : get_question (some u) lf₁ gen₁ draws₁ t₁ st = some (r₁, st₁))
    (h₂ : get_question (some u) lf₂ gen₂ draws₂ t₂ st₁ = some (r₂, st₂))
    (hl₂ : LEVELS.lookup (lf₂.getD "school_easy") = some level₂) :
    st₂.game_state u.id = some ⟨gen₂.2, lf₂.getD "school_easy", t₂⟩ ∧
    (∃ choices, r₂ = .ok gen₂.1 choices level₂.timer level₂.label level₂.points) ∧
    (gen₁.2 ≠ gen₂.2 → ¬ ((level₂.timer : Int) + 1 < now - t₂) →
      (check_answer (some u) (some gen₁.2) now st₂).1
        = .incorrectR gen₂.2 (get_score st₂.db u.id (lf₂.getD "school_easy"))) := by
  cases hc : build_choices gen₂.2 draws₂ with
  | none =>
    rw [get_question] at h₂
    simp only [hl₂, hc] at h₂
    exact Option.noConfusion h₂
  | some choices =>
    rw [get_question_eq_ok u lf₂ gen₂ draws₂ t₂ st₁ level₂ choices hl₂ hc] at h₂
    simp only [Option.some.injEq, Prod.mk.injEq] at h₂
    obtain ⟨hr, hs⟩ := h₂
    have hround : st₂.game_state u.id = some ⟨gen₂.2, lf₂.getD "school_easy", t₂⟩ := by
      rw [← hs]; simp
    refine ⟨hround, ⟨choices, hr.symm⟩, ?_⟩
    intro hne hin
    have hne' : (some gen₁.2 : Option Int)
        ≠ some (⟨gen₂.2, lf₂.getD "school_easy", t₂⟩ : Round).answer := by
      simpa using hne
    rw [check_answer_eq u (some gen₁.2) now st₂ _ hround]
    simp only [hl₂, if_neg hin, if_neg hne']

/-- C2 witness for the amended theorem: the concrete two-issue trace.
`stA` and `stB` are the states after the first and second issue. -/
def stA : ServerState :=
  { db := ensure_user st0.db 1 "Ann",
    game_state := fun uid =>
      if uid = 1 then some ⟨5, "school_easy", 0⟩ else st0.game_state uid }

def stB : ServerState :=
  { db := ensure_user stA.db 1 "Ann",
    game_state := fun uid =>
      if uid = 1 then some ⟨7, "school_easy", 1⟩ else stA.game_state uid }

theorem issue_twice_supersedes_witness :
    ((5 : Int) ≠ 7 ∧ ¬ ((15 : Int) + 1 < 3 - 1)) ∧
    (stB.game_state u1.id = some ⟨7, "school_easy", 1⟩ ∧
     (∃ choices, (QuestionResp.ok "q2" [7, 8, 9, 10] 15 "School – Easy" 1)
        = .ok "q2" choices 15 "School – Easy" 1) ∧
     ((5 : Int) ≠ 7 → ¬ ((15 : Int) + 1 < 3 - 1) →
       (check_answer (some u1) (some 5) 3 stB).1
         = .incorrectR 7 (get_score stB.db u1.id "school_easy"))) :=
  ⟨⟨by decide, by decide⟩,
   issue_twice_supersedes u1 (some "school_easy") (some "school_easy")
     ("q1", 5) ("q2", 7) dr3 dr3 0 1 3 st0 stA stB
     (.ok "q1" [5, 6, 7, 8] 15 "School – Easy" 1)
     (.ok "q2" [7, 8, 9, 10] 15 "School – Easy" 1)
     ⟨"School – Easy", 15, 1⟩ rfl rfl rfl⟩

/-! ### Distractor-generator lemmas (C6) -/

lemma addDistinct_nodup {acc : List Int} (h : acc.Nodup) (v : Int) :
    (addDistinct acc v).Nodup := by
  unfold addDistinct
  split_ifs with hv
  · exact h
  · simp [List.nodup_append, h, hv]

lemma mem_addDistinct {acc : List Int} {x : Int} (h : x ∈ acc) (v : Int) :
    x ∈ addDistinct acc v := by
  unfold addDistinct
  split_ifs with hv
  · exact h
  · simp [h]

lemma addDistinct_length_le (acc : List Int) (v : Int) :
    (addDistinct acc v).length ≤ acc.length + 1 := by
  unfold addDistinct
  split_ifs with hv <;> simp

/-- Partial correctness of the `_build_choices` loop: whenever it returns,
the result has exactly `count` pairwise-distinct members and extends the
accumulator. -/
lemma buildChoicesGo_spec (c : Int) (count : Nat) :
    ∀ (draws : List (Nat × Bool)) (acc r : List Int), acc.Nodup →
      acc.length ≤ count → buildChoicesGo c count draws acc = some r →
      r.Nodup ∧ r.length = count ∧ ∀ x ∈ acc, x ∈ r := by
  intro draws
  induction draws with
  | nil =>
    intro acc r hnd hlen h
    rw [buildChoicesGo] at h
    by_cases hge : count ≤ acc.length
    · rw [if_pos hge] at h
      cases h
      exact ⟨hnd, le_antisymm hlen hge, fun x hx => hx⟩
    · rw [if_neg hge] at h
      exact Option.noConfusion h
  | cons d rest ih =>
    intro acc r hnd hlen h
    obtain ⟨rawOff, sign⟩ := d
    rw [buildChoicesGo] at h
    by_cases hge : count ≤ acc.length
    · rw [if_pos hge] at h
      cases h
      exact ⟨hnd, le_antisymm hlen hge, fun x hx => hx⟩
    · rw [if_neg hge] at h
      simp only [] at h
      have hlt : acc.length < count := lt_of_not_ge hge
      have h' := ih _ r (addDistinct_nodup hnd _)
        (le_trans (addDistinct_length_le acc _) hlt) h
      exact ⟨h'.1, h'.2.1, fun x hx => h'.2.2 x (mem_addDistinct hx _)⟩

/-- Whenever `_build_choices` returns, the result is exactly 4 distinct
integers including the correct answer. -/
lemma build_choices_spec (c : Int) (draws : List (Nat × Bool)) (r : List Int)
    (h : build_choices c draws = some r) :
    r.length = 4 ∧ r.Nodup ∧ c ∈ r := by
  have := buildChoicesGo_spec c 4 draws [c] r (by simp) (by simp) h
  exact ⟨this.2.1, this.1, this.2.2 c (by simp)⟩

/-- With the spread floored at `max 10 |c| ≥ 10` the loop terminates for
every correct answer — in particular `c = 0` and negative values — e.g. on
the draw sequence with raw offsets 0, 1, 2 and positive sign, producing
`[c, c+1, c+2, c+3]`. -/
lemma buildChoicesGo_cons (c : Int) (count : Nat) (rawOff : Nat) (sign : Bool)
    (rest : List (Nat × Bool)) (acc : List Int) (h : ¬ (count ≤ acc.length)) :
    buildChoicesGo c count ((rawOff, sign) :: rest) acc
      = buildChoicesGo c count rest
          (addDistinct acc (c + (if sign then 1 else -1) * randint 1 (max 10 |c|) rawOff)) := by
  rw [buildChoicesGo, if_neg h]

lemma build_choices_three_draws (c : Int) :
    build_choices c [(0, true), (1, true), (2, true)] = some [c, c+1, c+2, c+3] := by
  have hM : (10 : Int) ≤ max 10 |c| := le_max_left _ _
  have hM' : max 10 |c| - 1 + 1 = max 10 |c| := by ring
  have h1 : (1 : Int) % (max 10 |c|) = 1 :=
    Int.emod_eq_of_lt (by norm_num) (lt_of_lt_of_le (by norm_num) hM)
  have h2 : (2 : Int) % (max 10 |c|) = 2 :=
    Int.emod_eq_of_lt (by norm_num) (lt_of_lt_of_le (by norm_num) hM)
  have v1 : c + (if true then (1 : Int) else -1) * randint 1 (max 10 |c|) 0 = c + 1 := by
    simp [randint, hM']
  have v2 : c + (if true then (1 : Int) else -1) * randint 1 (max 10 |c|) 1 = c + 2 := by
    simp [randint, hM', h1]
  have v3 : c + (if true then (1 : Int) else -1) * randint 1 (max 10 |c|) 2 = c + 3 := by
    simp [randint, hM', h2]
  have m1 : c + 1 ∉ ([c] : List Int) := by
    intro hmem
    simp only [List.mem_singleton] at hmem
    omega
  have m2 : c + 2 ∉ ([c, c + 1] : List Int) := by
    intro hmem
    simp at hmem
  have m3 : c + 3 ∉ ([c, c + 1, c + 2] : List Int) := by
    intro hmem
    simp at hmem
  have s1 : addDistinct [c]
      (c + (if true then (1 : Int) else -1) * randint 1 (max 10 |c|) 0) = [c, c + 1] := by
    rw [v1]
    unfold addDistinct
    rw [if_neg m1]
    rfl
  have s2 : addDistinct [c, c + 1]
      (c + (if true then (1 : Int) else -1) * randint 1 (max 10 |c|) 1) = [c, c + 1, c + 2] := by
    rw [v2]
    unfold addDistinct
    rw [if_neg m2]
    rfl
  have s3 : addDistinct [c, c + 1, c + 2]
      (c + (if true then (1 : Int) else -1) * randint 1 (max 10 |c|) 2)
      = [c, c + 1, c + 2, c + 3] := by
    rw [v3]
    unfold addDistinct
    rw [if_neg m3]
    rfl
  unfold build_choices
  rw [buildChoicesGo_cons c 4 0 true [(1, true), (2, true)] [c] (by simp), s1,
      buildChoicesGo_cons c 4 1 true [(2, true)] [c, c + 1] (by simp), s2,
      buildChoicesGo_cons c 4 2 true [] [c, c + 1, c + 2] (by simp), s3,
      buildChoicesGo,
      if_pos (by simp : 4 ≤ ([c, c + 1, c + 2, c + 3] : List Int).length)]

/-- Invariant of the 100-attempt random loop of `generate_options`:
distinctness, membership and the ≤ 4 size bound are preserved. -/
lemma genOptLoop_inv (answer spread : Int) (stream : Nat → Nat) :
    ∀ (fuel : Nat) (acc : List Int), acc.Nodup → acc.length ≤ 4 →
      ((genOptLoop answer spread stream fuel acc).Nodup ∧
       (genOptLoop answer spread stream fuel acc).length ≤ 4 ∧
       ∀ x ∈ acc, x ∈ genOptLoop answer spread stream fuel acc) := by
  intro fuel
  induction fuel with
  | zero =>
    intro acc hnd hlen
    exact ⟨hnd, hlen, fun x hx => hx⟩
  | succ n ih =>
    intro acc hnd hlen
    simp only [genOptLoop]
    by_cases hge : 4 ≤ acc.length
    · rw [if_pos hge]
      exact ⟨hnd, hlen, fun x hx => hx⟩
    · rw [if_neg hge]
      have hlt : acc.length < 4 := lt_of_not_ge hge
      by_cases hz : randint (-spread) spread (stream n) = 0
      · rw [if_pos hz]
        exact ih acc hnd hlen
      · rw [if_neg hz]
        have h' := ih (addDistinct acc (answer + randint (-spread) spread (stream n)))
          (addDistinct_nodup hnd _)
          (le_trans (addDistinct_length_le acc _) hlt)
        exact ⟨h'.1, h'.2.1, fun x hx => h'.2.2 x (mem_addDistinct hx _)⟩

/-- Number of members of `l` that are `≥ c` (counted with multiplicity). -/
def countGE (l : List Int) (c : Int) : Nat :=
  (l.filter (fun x => c ≤ x)).length

lemma countGE_le_length (l : List Int) (c : Int) : countGE l c ≤ l.length :=
  List.length_filter_le _ _

lemma countGE_mono (l : List Int) (c : Int) : countGE l (c + 1) ≤ countGE l c := by
  induction l with
  | nil => simp [countGE]
  | cons a t ih =>
    simp only [countGE, List.filter_cons]
    split_ifs with ha hb hb
    · simpa [countGE] using Nat.succ_le_succ ih
    · simp only [decide_eq_true_eq] at ha hb
      omega
    · exact le_trans (by simpa [countGE] using ih) (by simp)
    · simpa [countGE] using ih

lemma countGE_strict {l : List Int} {c : Int} (h : c ∈ l) :
    countGE l (c + 1) + 1 ≤ countGE l c := by
  induction l with
  | nil => cases h
  | cons a t ih =>
    rcases List.mem_cons.mp h with rfl | ht
    · simp only [countGE, List.filter_cons]
      have ha : ¬ (decide (c + 1 ≤ c) = true) := by simp
      have hb : decide (c ≤ c) = true := by simp
      rw [if_neg ha, if_pos hb]
      simpa [countGE] using Nat.succ_le_succ (countGE_mono t c)
    · simp only [countGE, List.filter_cons]
      split_ifs with ha hb hb
      · simpa [countGE] using Nat.succ_le_succ (ih ht)
      · simp only [decide_eq_true_eq] at ha hb
        omega
      · exact le_trans (by simpa [countGE] using ih ht) (by simp)
      · simpa [countGE] using ih ht

lemma countGE_append_small (l : List Int) {c v : Int} (hv : v < c) :
    countGE (l ++ [v]) c = countGE l c := by
  simp only [countGE, List.filter_append]
  have : ¬ (decide (c ≤ v) = true) := by simpa using not_le.mpr hv
  simp [List.filter, this]

/-- Fuel sufficiency for the deterministic fallback loop: starting from an
accumulator of size ≤ 4 with measure `(4 - |acc|) + countGE acc (answer +
spread + f)` at most the fuel, the loop always ends with exactly 4
options.  This proves the unbounded Python `while` loop terminates with
4 options, since each iteration either strictly shrinks the measure. -/
lemma genOptFallback_length (answer spread : Int) :
    ∀ (fuel : Nat) (f : Int) (acc : List Int), acc.length ≤ 4 →
      (4 - acc.length) + countGE acc (answer + spread + f) ≤ fuel →
      (genOptFallback answer spread fuel f acc).length = 4 := by
  intro fuel
  induction fuel with
  | zero =>
    intro f acc hlen hm
    have h1 : 4 - acc.length = 0 := by omega
    unfold genOptFallback
    omega
  | succ n ih =>
    intro f acc hlen hm
    simp only [genOptFallback]
    by_cases hge : 4 ≤ acc.length
    · rw [if_pos hge]
      omega
    · rw [if_neg hge]
      have hlt : acc.length < 4 := lt_of_not_ge hge
      set cand := answer + spread + f with hcand
      by_cases hmem : cand ∈ acc
      · have hstep : countGE acc (cand + 1) + 1 ≤ countGE acc cand :=
          countGE_strict hmem
        have hacc : addDistinct acc cand = acc := by
          unfold addDistinct
          rw [if_pos hmem]
        rw [hacc]
        apply ih (f + 1) acc hlen
        have hsh : answer + spread + (f + 1) = cand + 1 := by omega
        rw [hsh]
        omega
      · have hacc : addDistinct acc cand = acc ++ [cand] := by
          unfold addDistinct
          rw [if_neg hmem]
        rw [hacc]
        apply ih (f + 1) (acc ++ [cand]) (by simp; omega)
        have heq : answer + spread + (f + 1) = cand + 1 := by omega
        rw [heq, countGE_append_small acc (by omega)]
        have := countGE_mono acc cand
        simp only [List.length_append, List.length_singleton]
        omega

/-- Invariant of the fallback loop: distinctness and membership are
preserved. -/
lemma genOptFallback_inv (answer spread : Int) :
    ∀ (fuel : Nat) (f : Int) (acc : List Int), acc.Nodup →
      ((genOptFallback answer spread fuel f acc).Nodup ∧
       ∀ x ∈ acc, x ∈ genOptFallback answer spread fuel f acc) := by
  intro fuel
  induction fuel with
  | zero => intro f acc hnd; exact ⟨hnd, fun x hx => hx⟩
  | succ n ih =>
    intro f acc hnd
    simp only [genOptFallback]
    by_cases hge : 4 ≤ acc.length
    · rw [if_pos hge]
      exact ⟨hnd, fun x hx => hx⟩
    · rw [if_neg hge]
      have h' := ih (f + 1) (addDistinct acc (answer + spread + f))
        (addDistinct_nodup hnd _)
      exact ⟨h'.1, fun x hx => h'.2 x (mem_addDistinct hx _)⟩

/-- `generate_options` always returns exactly 4 distinct integers
including the correct answer, for every answer, level and random stream. -/
lemma generate_options_spec (answer : Int) (level : String) (stream : Nat → Nat) :
    (generate_options answer level stream).length = 4 ∧
    (generate_options answer level stream).Nodup ∧
    answer ∈ generate_options answer level stream := by
  unfold generate_options
  set spread : Int := if level = "uni" then max 20 (|answer| / 2) else 10 with hs
  have hloop := genOptLoop_inv answer spread stream 100 [answer] (by simp) (by simp)
  set opts := genOptLoop answer spread stream 100 [answer] with hopts
  have hfb := genOptFallback_inv answer spread 8 1 opts hloop.1
  have hlen : (genOptFallback answer spread 8 1 opts).length = 4 := by
    apply genOptFallback_length answer spread 8 1 opts hloop.2.1
    have h1 := countGE_le_length opts (answer + spread + 1)
    have h2 := hloop.2.1
    omega
  exact ⟨hlen, hfb.1, hfb.2 answer (hloop.2.2 answer (by simp))⟩

/-- C6: the distractor generators return exactly 4 distinct integers
including the correct answer, for every correct answer including 0 and
negative values.  For `_build_choices` (`app.py`): every terminating run
has this shape, and — thanks to the spread floor `max(10, |correct|)` —
terminating draw sequences exist for every correct answer (offsets are
drawn from the never-empty range `[1, max(10, |correct|)]`).  For
`generate_options` (`math1.py`): every run terminates with this shape,
for every random stream. -/
theorem distractors_four_distinct_including_correct :
    (∀ (c : Int) (draws : List (Nat × Bool)) (r : List Int),
       build_choices c draws = some r → r.length = 4 ∧ r.Nodup ∧ c ∈ r) ∧
    (∀ c : Int,
       build_choices c [(0, true), (1, true), (2, true)]
         = some [c, c + 1, c + 2, c + 3]) ∧
    (∀ (answer : Int) (level : String) (stream : Nat → Nat),
       (generate_options answer level stream).length = 4 ∧
       (generate_options answer level stream).Nodup ∧
       answer ∈ generate_options answer level stream) :=
  ⟨build_choices_spec, build_choices_three_draws, generate_options_spec⟩

/-- C6 witness: concrete runs at correct answers 0 and -3. -/
theorem distractors_four_distinct_including_correct_witness :
    (([(0 : Int), 1, 2, 3]).length = 4 ∧ ([(0 : Int), 1, 2, 3]).Nodup ∧
      (0 : Int) ∈ [(0 : Int), 1, 2, 3]) ∧
    build_choices (-3) [(0, true), (1, true), (2, true)]
      = some [-3, -3 + 1, -3 + 2, -3 + 3] ∧
    ((generate_options 0 "uni" (fun _ => 0)).length = 4 ∧
     (generate_options 0 "uni" (fun _ => 0)).Nodup ∧
     (0 : Int) ∈ generate_options 0 "uni" (fun _ => 0)) :=
  ⟨distractors_four_distinct_including_correct.1 0 [(0, true), (1, true), (2, true)]
      [0, 1, 2, 3] (by decide),
   distractors_four_distinct_including_correct.2.1 (-3),
   distractors_four_distinct_including_correct.2.2 0 "uni" (fun _ => 0)⟩

end MathGame
